import Mathlib

/-!
Verification of the shortsgen manifest-driven timeline compositor.

The definitions below are a shallow embedding of the Remotion composition
code (`src/ShortVideo.tsx`, `src/CaptionsOverlay.tsx`, `src/SceneSlide.tsx`,
`src/types.ts`).  JavaScript numbers are modelled as rationals (`ℚ`), frame
counts as integers, fallible steps as `Except`.  Pieces of the pipeline that
live in external libraries (`@remotion/captions`, remotion's `interpolate`
and `Series`) are modelled from the specification and marked as such.
-/

/-- Caption record, from `src/types.ts`. -/
structure Caption where
  text : String
  startMs : ℚ
  endMs : ℚ
  timestampMs : Option ℚ
  confidence : Option ℚ
deriving Repr, DecidableEq

/-- Scene record, from `src/types.ts` (`SceneInput`). -/
structure SceneInput where
  text : String
  imagePath : String
  voicePath : String
  durationInSeconds : ℚ
deriving Repr, DecidableEq

/-- Manifest record, from `src/types.ts` (`VideoManifest`). -/
structure VideoManifest where
  cacheKey : String
  fps : ℚ
  width : ℚ
  height : ℚ
  durationInFrames : ℤ
  scenes : List SceneInput
  captions : List Caption
deriving Repr, DecidableEq

/-- A caption page, as produced by `createTikTokStyleCaptions`
(`TikTokPage` of `@remotion/captions`).  Its `tokens` are the member
captions, each keeping its own time bounds. -/
structure TikTokPage where
  text : String
  startMs : ℚ
  durationMs : ℚ
  tokens : List Caption
deriving Repr, DecidableEq

/-- Modelled from the spec: the grouping pass of `createTikTokStyleCaptions`
(`@remotion/captions`, not part of this repository).  Spec §4.1: scan the
captions in order and start a new page exactly when (a) it is the first
caption, or (b) the gap between the current caption's `startMs` and the
previous caption's `endMs` exceeds `combineThresholdMs`. -/
def groupCaptions (combineThresholdMs : ℚ) : List Caption → List (List Caption)
  | [] => []
  | [c] => [[c]]
  | c :: c' :: rest =>
    match groupCaptions combineThresholdMs (c' :: rest) with
    | [] => [[c]]
    | g :: gs =>
      if c'.startMs - c.endMs > combineThresholdMs then [c] :: g :: gs
      else (c :: g) :: gs

/-- Start of a page: its first token's `startMs` (spec §3). -/
def pageStart (g : List Caption) : ℚ :=
  match g.head? with
  | some c => c.startMs
  | none => 0

/-- End of a page: its last token's `endMs` (spec §3). -/
def pageEnd (g : List Caption) : ℚ :=
  match g.getLast? with
  | some c => c.endMs
  | none => 0

/-- Modelled from the spec: a closed page of `createTikTokStyleCaptions`.
`startMs` is the first token's `startMs`, `durationMs` spans to the last
token's `endMs`, and `tokens` are the member captions (spec §3, §4.1). -/
def mkPage (g : List Caption) : TikTokPage where
  text := String.join (g.map (fun c => c.text))
  startMs := pageStart g
  durationMs := pageEnd g - pageStart g
  tokens := g

/-- Modelled from the spec: `createTikTokStyleCaptions` of
`@remotion/captions` (not part of this repository), called at
`src/CaptionsOverlay.tsx:29`.  It partitions the captions into pages by the
time-proximity rule of spec §4.1. -/
def createTikTokStyleCaptions (captions : List Caption)
    (combineThresholdMs : ℚ) : List TikTokPage :=
  (groupCaptions combineThresholdMs captions).map mkPage

/-- The grouping pass never produces an empty group list from a nonempty
caption list. -/
theorem groupCaptions_ne_nil (t : ℚ) (c : Caption) (l : List Caption) :
    groupCaptions t (c :: l) ≠ [] := by
  cases l with
  | nil => simp [groupCaptions]
  | cons c' rest =>
    unfold groupCaptions
    cases groupCaptions t (c' :: rest) with
    | nil => simp
    | cons g gs =>
      by_cases h : c'.startMs - c.endMs > t <;> simp [h]

/-- Concatenating the groups returns the original caption list. -/
theorem groupCaptions_join (t : ℚ) (l : List Caption) :
    (groupCaptions t l).flatten = l := by
  induction l with
  | nil => simp [groupCaptions]
  | cons c rest ih =>
    cases rest with
    | nil => simp [groupCaptions]
    | cons c' rest' =>
      unfold groupCaptions
      cases hg : groupCaptions t (c' :: rest') with
      | nil => exact absurd hg (groupCaptions_ne_nil t c' rest')
      | cons g gs =>
        rw [hg] at ih
        by_cases h : c'.startMs - c.endMs > t <;>
          simpa [h] using ih

/-- C1: for every caption sequence and every non-negative threshold, the
concatenation of all pages' token lists equals the original caption
sequence, in order, with nothing dropped and nothing duplicated (the pages
partition the input). -/
theorem pages_tokens_partition (captions : List Caption)
    (combineThresholdMs : ℚ) (_h : 0 ≤ combineThresholdMs) :
    ((createTikTokStyleCaptions captions combineThresholdMs).map
      TikTokPage.tokens).flatten = captions := by
  unfold createTikTokStyleCaptions
  rw [List.map_map]
  have : TikTokPage.tokens ∘ mkPage = id := by
    funext g; rfl
  rw [this, List.map_id]
  exact groupCaptions_join combineThresholdMs captions

/-- Witness for C1 at a concrete input (the spec §8 scenario 1 captions,
threshold 800). -/
theorem pages_tokens_partition_witness :
    ((createTikTokStyleCaptions
        [⟨"word1", 0, 500, none, none⟩,
         ⟨"word2", 520, 900, none, none⟩,
         ⟨"word3", 2000, 2400, none, none⟩] 800).map
      TikTokPage.tokens).flatten =
      [⟨"word1", 0, 500, none, none⟩,
       ⟨"word2", 520, 900, none, none⟩,
       ⟨"word3", 2000, 2400, none, none⟩] :=
  pages_tokens_partition _ 800 (by decide)

/-- Unfolding equation for the two-captions case of the grouping pass. -/
theorem groupCaptions_cons_cons (t : ℚ) (c c' : Caption)
    (rest : List Caption) :
    groupCaptions t (c :: c' :: rest) =
      match groupCaptions t (c' :: rest) with
      | [] => [[c]]
      | g :: gs =>
        if c'.startMs - c.endMs > t then [c] :: g :: gs
        else (c :: g) :: gs := by
  rfl

/-- Length bookkeeping for the grouping pass: the head caption either opens
a fresh page (gap above threshold) or joins the first page of the rest. -/
theorem groupCaptions_length_cons (t : ℚ) (c c' : Caption)
    (rest : List Caption) :
    (groupCaptions t (c :: c' :: rest)).length =
      (groupCaptions t (c' :: rest)).length +
        (if c'.startMs - c.endMs > t then 1 else 0) := by
  rw [groupCaptions_cons_cons]
  cases hg : groupCaptions t (c' :: rest) with
  | nil => exact absurd hg (groupCaptions_ne_nil t c' rest)
  | cons g gs =>
    by_cases h : c'.startMs - c.endMs > t <;> simp [h]

/-- Raising the threshold can only merge pages, never split them. -/
theorem groupCaptions_length_antitone (t1 t2 : ℚ) (h : t1 ≤ t2)
    (l : List Caption) :
    (groupCaptions t2 l).length ≤ (groupCaptions t1 l).length := by
  induction l with
  | nil => simp [groupCaptions]
  | cons c rest ih =>
    cases rest with
    | nil => simp [groupCaptions]
    | cons c' rest' =>
      rw [groupCaptions_length_cons, groupCaptions_length_cons]
      have hif : (if c'.startMs - c.endMs > t2 then 1 else 0) ≤
          (if c'.startMs - c.endMs > t1 then 1 else 0) := by
        by_cases h2 : c'.startMs - c.endMs > t2
        · have h1 : c'.startMs - c.endMs > t1 := lt_of_le_of_lt h h2
          simp [h1, h2]
        · by_cases h1 : c'.startMs - c.endMs > t1 <;> simp [h1, h2]
      exact Nat.add_le_add ih hif

/-- C7: for a fixed caption sequence the number of pages is antitone in the
threshold: a larger `combineThresholdMs` never yields more pages. -/
theorem pages_count_antitone (captions : List Caption) (t1 t2 : ℚ)
    (h : t1 ≤ t2) :
    (createTikTokStyleCaptions captions t2).length ≤
      (createTikTokStyleCaptions captions t1).length := by
  unfold createTikTokStyleCaptions
  rw [List.length_map, List.length_map]
  exact groupCaptions_length_antitone t1 t2 h captions

/-- Witness for C7 at a concrete input: thresholds 0 and 800 on the spec §8
scenario captions. -/
theorem pages_count_antitone_witness :
    (createTikTokStyleCaptions
        [⟨"word1", 0, 500, none, none⟩,
         ⟨"word2", 520, 900, none, none⟩,
         ⟨"word3", 2000, 2400, none, none⟩] 800).length ≤
      (createTikTokStyleCaptions
        [⟨"word1", 0, 500, none, none⟩,
         ⟨"word2", 520, 900, none, none⟩,
         ⟨"word3", 2000, 2400, none, none⟩] 0).length :=
  pages_count_antitone _ 0 800 (by decide)

/-- The page-selection predicate of `src/CaptionsOverlay.tsx:35`:
`timeMs >= p.startMs && timeMs < p.startMs + p.durationMs`. -/
def pageActive (timeMs : ℚ) (p : TikTokPage) : Prop :=
  p.startMs ≤ timeMs ∧ timeMs < p.startMs + p.durationMs

instance (timeMs : ℚ) (p : TikTokPage) : Decidable (pageActive timeMs p) :=
  inferInstanceAs (Decidable (_ ∧ _))

/-- Embedding of `pages.find(...)` of `src/CaptionsOverlay.tsx:34`: the first page whose
half-open interval contains `timeMs`. -/
def currentPage (pages : List TikTokPage) (timeMs : ℚ) : Option TikTokPage :=
  pages.find? (fun p => decide (pageActive timeMs p))

/-- Embedding of `timeMs = (frame / fps) * 1000` of `src/CaptionsOverlay.tsx:27`. -/
def frameTimeMs (frame : ℤ) (fps : ℚ) : ℚ :=
  ((frame : ℚ) / fps) * 1000

/-- Spec §3 invariant on the caption input: every caption is well formed
(`startMs ≤ endMs`) and consecutive captions do not overlap
(`endMs ≤` next `startMs`). -/
def CaptionsSorted (l : List Caption) : Prop :=
  (∀ c ∈ l, c.startMs ≤ c.endMs) ∧
    l.Chain' (fun c c' => c.endMs ≤ c'.startMs)

/-- Layout invariant for a list of caption groups: every group is nonempty,
spans a well-formed time range, starts no earlier than `lo`, and the groups
are laid out left to right without overlap. -/
def GoodFrom (lo : ℚ) : List (List Caption) → Prop
  | [] => True
  | g :: gs =>
    g ≠ [] ∧ lo ≤ pageStart g ∧ pageStart g ≤ pageEnd g ∧
      GoodFrom (pageEnd g) gs

theorem pageStart_cons (c : Caption) (g : List Caption) :
    pageStart (c :: g) = c.startMs := rfl

theorem pageEnd_cons_of_ne_nil (c : Caption) (g : List Caption)
    (h : g ≠ []) : pageEnd (c :: g) = pageEnd g := by
  cases g with
  | nil => exact absurd rfl h
  | cons x xs => rfl

/-- On sorted well-formed captions, the grouping pass produces groups laid
out left to right without overlap. -/
theorem groupCaptions_goodFrom (t : ℚ) (l : List Caption) :
    ∀ lo : ℚ,
      (∀ c ∈ l, c.startMs ≤ c.endMs) →
      l.Chain' (fun c c' => c.endMs ≤ c'.startMs) →
      (∀ c ∈ l.head?, lo ≤ c.startMs) →
      GoodFrom lo (groupCaptions t l) := by
  induction l with
  | nil => intro lo _ _ _; simp [groupCaptions, GoodFrom]
  | cons c rest ih =>
    intro lo hwf hchain hlo
    have hloc : lo ≤ c.startMs := hlo c rfl
    have hc : c.startMs ≤ c.endMs := hwf c (by simp)
    cases rest with
    | nil =>
      simp only [groupCaptions, GoodFrom, pageStart, pageEnd, List.head?,
        List.getLast?]
      exact ⟨by simp, hloc, hc, trivial⟩
    | cons c' rest' =>
      rw [groupCaptions_cons_cons]
      rw [List.chain'_cons] at hchain
      obtain ⟨hcc', hchain'⟩ := hchain
      have hwf' : ∀ x ∈ c' :: rest', x.startMs ≤ x.endMs := by
        intro x hx; exact hwf x (List.mem_cons_of_mem c hx)
      have ihr : GoodFrom c.endMs (groupCaptions t (c' :: rest')) :=
        ih c.endMs hwf' hchain' (by intro x hx; simp at hx; rw [← hx]; exact hcc')
      cases hg : groupCaptions t (c' :: rest') with
      | nil => exact absurd hg (groupCaptions_ne_nil t c' rest')
      | cons g gs =>
        rw [hg] at ihr
        obtain ⟨hgne, hlog, hgse, hrest⟩ := ihr
        by_cases hgap : c'.startMs - c.endMs > t
        · simp only [if_pos hgap]
          refine ⟨by simp, ?_, ?_, ?_⟩
          · simpa [pageStart] using hloc
          · simpa [pageStart, pageEnd] using hc
          · exact ⟨hgne, by simpa [pageEnd] using hlog, hgse, hrest⟩
        · simp only [if_neg hgap]
          refine ⟨by simp, ?_, ?_, ?_⟩
          · simpa [pageStart_cons] using hloc
          · rw [pageStart_cons, pageEnd_cons_of_ne_nil c g hgne]
            exact le_trans hc (le_trans hlog hgse)
          · rw [pageEnd_cons_of_ne_nil c g hgne]
            exact hrest

theorem GoodFrom.mono {lo lo' : ℚ} (h : lo' ≤ lo) :
    ∀ {gs : List (List Caption)}, GoodFrom lo gs → GoodFrom lo' gs
  | [], _ => trivial
  | g :: gs, ⟨hne, hlo, hse, hrest⟩ => ⟨hne, le_trans h hlo, hse, hrest⟩

theorem GoodFrom.start_le {lo : ℚ} :
    ∀ {gs : List (List Caption)}, GoodFrom lo gs →
      ∀ g ∈ gs, lo ≤ pageStart g ∧ pageStart g ≤ pageEnd g := by
  intro gs
  induction gs generalizing lo with
  | nil => intro _ g hg; simp at hg
  | cons g0 gs0 ih =>
    intro h g hg
    obtain ⟨hne, hlo, hse, hrest⟩ := h
    rcases List.mem_cons.mp hg with rfl | hg'
    · exact ⟨hlo, hse⟩
    · have := ih (hrest.mono (le_refl _)) g hg'
      exact ⟨le_trans hlo (le_trans hse this.1), this.2⟩

theorem GoodFrom.pairwise {lo : ℚ} :
    ∀ {gs : List (List Caption)}, GoodFrom lo gs →
      gs.Pairwise (fun u v => pageEnd u ≤ pageStart v) := by
  intro gs
  induction gs generalizing lo with
  | nil => intro _; simp
  | cons g0 gs0 ih =>
    intro h
    obtain ⟨hne, hlo, hse, hrest⟩ := h
    refine List.Pairwise.cons ?_ (ih hrest)
    intro g' hg'
    exact (hrest.start_le g' hg').1

/-- On sorted well-formed captions the groups are pairwise ordered and
disjoint in time. -/
theorem groupCaptions_pairwise (t : ℚ) (l : List Caption)
    (hs : CaptionsSorted l) :
    (groupCaptions t l).Pairwise (fun g g' => pageEnd g ≤ pageStart g') := by
  obtain ⟨hwf, hchain⟩ := hs
  cases l with
  | nil => simp [groupCaptions]
  | cons c rest =>
    exact (groupCaptions_goodFrom t (c :: rest) c.startMs hwf hchain
      (by intro x hx; simp at hx; rw [← hx])).pairwise

/-- Disjoint time ranges of consecutive groups make the derived pages
mutually exclusive at any instant. -/
theorem pages_pairwise_not_both_active (t timeMs : ℚ) (l : List Caption)
    (hs : CaptionsSorted l) :
    (createTikTokStyleCaptions l t).Pairwise
      (fun p q => ¬(pageActive timeMs p ∧ pageActive timeMs q)) := by
  unfold createTikTokStyleCaptions
  rw [List.pairwise_map]
  refine (groupCaptions_pairwise t l hs).imp ?_
  intro g g' hle hboth
  obtain ⟨⟨_, hlt⟩, ⟨hge, _⟩⟩ := hboth
  simp only [mkPage] at hlt hge
  have hend : pageStart g + (pageEnd g - pageStart g) = pageEnd g := by ring
  rw [hend] at hlt
  exact absurd (lt_of_lt_of_le hlt (le_trans hle hge)) (lt_irrefl timeMs)

/-- C6: at the time of any frame, at most one page is active; the
compositor's `find` selects a page only when the frame time lies in the
page's half-open interval; and when no page interval contains the frame
time, no page is selected (no caption is rendered).  The caption input is
assumed sorted and non-overlapping (spec §3 invariant). -/
theorem caption_page_exclusive (captions : List Caption) (t : ℚ)
    (hs : CaptionsSorted captions) (frame : ℤ) (fps : ℚ) :
    ((createTikTokStyleCaptions captions t).Pairwise
        (fun p q => ¬(pageActive (frameTimeMs frame fps) p ∧
          pageActive (frameTimeMs frame fps) q))) ∧
    (∀ p, currentPage (createTikTokStyleCaptions captions t)
        (frameTimeMs frame fps) = some p →
      pageActive (frameTimeMs frame fps) p) ∧
    ((∀ p ∈ createTikTokStyleCaptions captions t,
        ¬ pageActive (frameTimeMs frame fps) p) →
      currentPage (createTikTokStyleCaptions captions t)
        (frameTimeMs frame fps) = none) := by
  refine ⟨pages_pairwise_not_both_active t _ captions hs, ?_, ?_⟩
  · intro p hp
    have := List.find?_some hp
    exact of_decide_eq_true this
  · intro hnone
    unfold currentPage
    rw [List.find?_eq_none]
    intro p hp
    simpa using hnone p hp

/-- Witness for C6 at a concrete input: the spec §8 scenario captions,
threshold 800, frame 3 at 30 fps. -/
theorem caption_page_exclusive_witness :
    ((createTikTokStyleCaptions
        [⟨"word1", 0, 500, none, none⟩,
         ⟨"word2", 520, 900, none, none⟩,
         ⟨"word3", 2000, 2400, none, none⟩] 800).Pairwise
        (fun p q => ¬(pageActive (frameTimeMs 3 30) p ∧
          pageActive (frameTimeMs 3 30) q))) ∧
    (∀ p, currentPage (createTikTokStyleCaptions
        [⟨"word1", 0, 500, none, none⟩,
         ⟨"word2", 520, 900, none, none⟩,
         ⟨"word3", 2000, 2400, none, none⟩] 800)
        (frameTimeMs 3 30) = some p →
      pageActive (frameTimeMs 3 30) p) ∧
    ((∀ p ∈ createTikTokStyleCaptions
        [⟨"word1", 0, 500, none, none⟩,
         ⟨"word2", 520, 900, none, none⟩,
         ⟨"word3", 2000, 2400, none, none⟩] 800,
        ¬ pageActive (frameTimeMs 3 30) p) →
      currentPage (createTikTokStyleCaptions
        [⟨"word1", 0, 500, none, none⟩,
         ⟨"word2", 520, 900, none, none⟩,
         ⟨"word3", 2000, 2400, none, none⟩] 800)
        (frameTimeMs 3 30) = none) :=
  caption_page_exclusive
    [⟨"word1", 0, 500, none, none⟩,
     ⟨"word2", 520, 900, none, none⟩,
     ⟨"word3", 2000, 2400, none, none⟩] 800
    ⟨by decide,
      by simp only [List.chain'_cons, List.chain'_singleton, and_true]; decide⟩
    3 30

/-- Embedding of `pageProgress` of `src/CaptionsOverlay.tsx:40`:
`(timeMs - currentPage.startMs) / currentPage.durationMs`. -/
def pageProgress (timeMs : ℚ) (p : TikTokPage) : ℚ :=
  (timeMs - p.startMs) / p.durationMs

/-- Embedding of `wordProgress` of `src/CaptionsOverlay.tsx:188-192` (per-word highlight
variant): guarded division by the token's duration.  A token's
`fromMs`/`toMs` are the embedded caption's `startMs`/`endMs`. -/
def wordProgress (timeMs : ℚ) (tok : Caption) : ℚ :=
  if 0 < tok.endMs - tok.startMs then
    (timeMs - tok.startMs) / (tok.endMs - tok.startMs)
  else 0

/-- C10: a page of zero duration has an empty half-open interval, so no
frame time activates it and `find` never selects it — hence `pageProgress`
is only evaluated with a strictly positive denominator — and a token whose
`toMs` equals its `fromMs` gets word progress 0 through the explicit
guard. -/
theorem zero_duration_guards (p : TikTokPage) (hp : p.durationMs = 0)
    (tok : Caption) (htok : tok.endMs = tok.startMs) (timeMs : ℚ) :
    (¬ pageActive timeMs p) ∧
    (∀ pages : List TikTokPage, currentPage pages timeMs ≠ some p) ∧
    (∀ (pages : List TikTokPage) (q : TikTokPage),
      currentPage pages timeMs = some q → 0 < q.durationMs) ∧
    wordProgress timeMs tok = 0 := by
  have hnact : ¬ pageActive timeMs p := by
    intro hact
    obtain ⟨h1, h2⟩ := hact
    rw [hp, add_zero] at h2
    exact absurd (lt_of_le_of_lt h1 h2) (lt_irrefl _)
  refine ⟨hnact, ?_, ?_, ?_⟩
  · intro pages hfound
    unfold currentPage at hfound
    have h := List.find?_some hfound
    simp only [decide_eq_true_eq] at h
    exact hnact h
  · intro pages q hq
    unfold currentPage at hq
    have h := List.find?_some hq
    simp only [decide_eq_true_eq] at h
    obtain ⟨h1, h2⟩ := h
    have := lt_of_le_of_lt h1 h2
    linarith
  · unfold wordProgress
    rw [htok, sub_self]
    simp

/-- Witness for C10 at a concrete input: a page with `durationMs = 0`, a
token with `toMs = fromMs`, frame time 100 ms. -/
theorem zero_duration_guards_witness :
    (¬ pageActive 100 ⟨"", 100, 0, []⟩) ∧
    (∀ pages : List TikTokPage, currentPage pages 100 ≠ some ⟨"", 100, 0, []⟩) ∧
    (∀ (pages : List TikTokPage) (q : TikTokPage),
      currentPage pages 100 = some q → 0 < q.durationMs) ∧
    wordProgress 100 ⟨"w", 5, 5, none, none⟩ = 0 :=
  zero_duration_guards ⟨"", 100, 0, []⟩ rfl ⟨"w", 5, 5, none, none⟩ rfl 100

/-- Embedding of `Math.ceil(scene.durationInSeconds * manifest.fps)` of
`src/ShortVideo.tsx:47-49`: a scene's length in frames. -/
def sceneDurationInFrames (fps : ℚ) (s : SceneInput) : ℤ :=
  ⌈s.durationInSeconds * fps⌉

/-- Modelled from the spec: the remotion `Series` layout (external library)
used at `src/ShortVideo.tsx:43`, spec §4.2: scene `i` starts at the sum of
the frame durations of scenes `0..i-1`. -/
def sceneStartFrame (fps : ℚ) (scenes : List SceneInput) (i : ℕ) : ℤ :=
  ((scenes.take i).map (sceneDurationInFrames fps)).sum

/-- Total laid-out timeline length: the sum of all scenes' frame
durations. -/
def totalDurationInFrames (fps : ℚ) (scenes : List SceneInput) : ℤ :=
  (scenes.map (sceneDurationInFrames fps)).sum

/-- Half-open frame-interval membership `start <= f < start + len`
(spec §3 "Timeline Interval"). -/
def inFrameInterval (start len f : ℤ) : Prop :=
  start ≤ f ∧ f < start + len

instance (start len f : ℤ) : Decidable (inFrameInterval start len f) :=
  inferInstanceAs (Decidable (_ ∧ _))

theorem sum_take_le_sum_take (L : List ℤ) (h0 : ∀ x ∈ L, 0 ≤ x)
    {i j : ℕ} (hij : i ≤ j) :
    (L.take i).sum ≤ (L.take j).sum := by
  have h2 : (L.take j).take i = L.take i := by
    rw [List.take_take, Nat.min_eq_left hij]
  have h3 : 0 ≤ ((L.take j).drop i).sum :=
    List.sum_nonneg
      (fun x hx => h0 x (List.mem_of_mem_take (List.mem_of_mem_drop hx)))
  calc (L.take i).sum = ((L.take j).take i).sum := by rw [h2]
    _ ≤ ((L.take j).take i).sum + ((L.take j).drop i).sum := by linarith
    _ = (L.take j).sum := by rw [← List.sum_append, List.take_append_drop]

theorem sceneStartFrame_eq_take_sum (fps : ℚ) (scenes : List SceneInput)
    (i : ℕ) :
    sceneStartFrame fps scenes i =
      ((scenes.map (sceneDurationInFrames fps)).take i).sum := by
  rw [sceneStartFrame, List.map_take]

/-- Contiguity: each scene starts exactly where the previous one ends. -/
theorem sceneStartFrame_succ (fps : ℚ) (scenes : List SceneInput) (i : ℕ)
    (hi : i < scenes.length) :
    sceneStartFrame fps scenes (i + 1) =
      sceneStartFrame fps scenes i +
        sceneDurationInFrames fps (scenes.get ⟨i, hi⟩) := by
  rw [sceneStartFrame_eq_take_sum, sceneStartFrame_eq_take_sum]
  have hlen : i < (scenes.map (sceneDurationInFrames fps)).length := by
    simpa using hi
  rw [List.sum_take_succ _ i hlen]
  congr 1
  rw [List.getElem_map]
  rfl

/-- With positive scene durations the start frames are monotone. -/
theorem sceneStartFrame_mono (fps : ℚ) (scenes : List SceneInput)
    (hfps : 0 < fps) (hdur : ∀ s ∈ scenes, 0 < s.durationInSeconds)
    {i j : ℕ} (hij : i ≤ j) :
    sceneStartFrame fps scenes i ≤ sceneStartFrame fps scenes j := by
  rw [sceneStartFrame_eq_take_sum, sceneStartFrame_eq_take_sum]
  refine sum_take_le_sum_take _ ?_ hij
  intro x hx
  obtain ⟨s, hs, rfl⟩ := List.mem_map.mp hx
  exact le_of_lt (Int.ceil_pos.mpr (mul_pos (hdur s hs) hfps))

/-- Positive scene durations yield positive frame intervals. -/
theorem sceneDurationInFrames_pos (fps : ℚ) (s : SceneInput)
    (hfps : 0 < fps) (hd : 0 < s.durationInSeconds) :
    0 < sceneDurationInFrames fps s :=
  Int.ceil_pos.mpr (mul_pos hd hfps)

/-- C2: for a non-empty scene list and positive fps, the scene timeline
assigns scene `i` the half-open interval starting at the sum of the earlier
scenes' `ceil(durationInSeconds * fps)`: scene 0 starts at frame 0, the
intervals are contiguous and non-overlapping, the total length is the sum
of all the per-scene frame counts, and a frame on the boundary of two
intervals belongs to the later one. -/
theorem scene_timeline_intervals (scenes : List SceneInput) (fps : ℚ)
    (_hne : scenes ≠ []) (hfps : 0 < fps)
    (hdur : ∀ s ∈ scenes, 0 < s.durationInSeconds) :
    sceneStartFrame fps scenes 0 = 0 ∧
    (∀ (i : ℕ) (hi : i < scenes.length),
      sceneStartFrame fps scenes (i + 1) =
        sceneStartFrame fps scenes i +
          sceneDurationInFrames fps (scenes.get ⟨i, hi⟩)) ∧
    sceneStartFrame fps scenes scenes.length =
      totalDurationInFrames fps scenes ∧
    (∀ (i j : ℕ) (hi : i < scenes.length) (hj : j < scenes.length),
      i < j → ∀ f : ℤ,
        inFrameInterval (sceneStartFrame fps scenes i)
          (sceneDurationInFrames fps (scenes.get ⟨i, hi⟩)) f →
        ¬ inFrameInterval (sceneStartFrame fps scenes j)
          (sceneDurationInFrames fps (scenes.get ⟨j, hj⟩)) f) ∧
    (∀ (i : ℕ) (hi : i + 1 < scenes.length),
      ¬ inFrameInterval (sceneStartFrame fps scenes i)
          (sceneDurationInFrames fps (scenes.get ⟨i, Nat.lt_of_succ_lt hi⟩))
          (sceneStartFrame fps scenes (i + 1)) ∧
      inFrameInterval (sceneStartFrame fps scenes (i + 1))
        (sceneDurationInFrames fps (scenes.get ⟨i + 1, hi⟩))
        (sceneStartFrame fps scenes (i + 1))) := by
  refine ⟨rfl, sceneStartFrame_succ fps scenes, ?_, ?_, ?_⟩
  · rw [sceneStartFrame_eq_take_sum,
      List.take_of_length_le (by simp [List.length_map])]
    rfl
  · intro i j hi hj hij f hfi hfj
    obtain ⟨hi1, hi2⟩ := hfi
    obtain ⟨hj1, hj2⟩ := hfj
    have hsucc : sceneStartFrame fps scenes (i + 1) =
        sceneStartFrame fps scenes i +
          sceneDurationInFrames fps (scenes.get ⟨i, hi⟩) :=
      sceneStartFrame_succ fps scenes i hi
    have hmono : sceneStartFrame fps scenes (i + 1) ≤
        sceneStartFrame fps scenes j :=
      sceneStartFrame_mono fps scenes hfps hdur hij
    omega
  · intro i hi
    have hsucc : sceneStartFrame fps scenes (i + 1) =
        sceneStartFrame fps scenes i +
          sceneDurationInFrames fps (scenes.get ⟨i, Nat.lt_of_succ_lt hi⟩) :=
      sceneStartFrame_succ fps scenes i (Nat.lt_of_succ_lt hi)
    have hpos : 0 < sceneDurationInFrames fps (scenes.get ⟨i + 1, hi⟩) :=
      sceneDurationInFrames_pos fps _ hfps
        (hdur _ (List.get_mem scenes (i + 1) hi))
    constructor
    · intro hmem
      obtain ⟨h1, h2⟩ := hmem
      omega
    · exact ⟨le_refl _, by omega⟩

/-- Witness for C2 at a concrete input: two scenes of 2 s and 1 s at
30 fps. -/
theorem scene_timeline_intervals_witness :
    sceneStartFrame 30 [⟨"a", "a.png", "a.mp3", 2⟩,
        ⟨"b", "b.png", "b.mp3", 1⟩] 0 = 0 ∧
    (∀ (i : ℕ) (hi : i < ([⟨"a", "a.png", "a.mp3", 2⟩,
        ⟨"b", "b.png", "b.mp3", 1⟩] : List SceneInput).length),
      sceneStartFrame 30 [⟨"a", "a.png", "a.mp3", 2⟩,
          ⟨"b", "b.png", "b.mp3", 1⟩] (i + 1) =
        sceneStartFrame 30 [⟨"a", "a.png", "a.mp3", 2⟩,
            ⟨"b", "b.png", "b.mp3", 1⟩] i +
          sceneDurationInFrames 30
            (([⟨"a", "a.png", "a.mp3", 2⟩,
              ⟨"b", "b.png", "b.mp3", 1⟩] : List SceneInput).get ⟨i, hi⟩)) ∧
    sceneStartFrame 30 [⟨"a", "a.png", "a.mp3", 2⟩, ⟨"b", "b.png", "b.mp3", 1⟩]
        ([⟨"a", "a.png", "a.mp3", 2⟩,
          ⟨"b", "b.png", "b.mp3", 1⟩] : List SceneInput).length =
      totalDurationInFrames 30 [⟨"a", "a.png", "a.mp3", 2⟩,
        ⟨"b", "b.png", "b.mp3", 1⟩] ∧
    (∀ (i j : ℕ) (hi : i < ([⟨"a", "a.png", "a.mp3", 2⟩,
        ⟨"b", "b.png", "b.mp3", 1⟩] : List SceneInput).length)
        (hj : j < ([⟨"a", "a.png", "a.mp3", 2⟩,
          ⟨"b", "b.png", "b.mp3", 1⟩] : List SceneInput).length),
      i < j → ∀ f : ℤ,
        inFrameInterval (sceneStartFrame 30 [⟨"a", "a.png", "a.mp3", 2⟩,
            ⟨"b", "b.png", "b.mp3", 1⟩] i)
          (sceneDurationInFrames 30
            (([⟨"a", "a.png", "a.mp3", 2⟩,
              ⟨"b", "b.png", "b.mp3", 1⟩] : List SceneInput).get ⟨i, hi⟩)) f →
        ¬ inFrameInterval (sceneStartFrame 30 [⟨"a", "a.png", "a.mp3", 2⟩,
            ⟨"b", "b.png", "b.mp3", 1⟩] j)
          (sceneDurationInFrames 30
            (([⟨"a", "a.png", "a.mp3", 2⟩,
              ⟨"b", "b.png", "b.mp3", 1⟩] : List SceneInput).get ⟨j, hj⟩)) f) ∧
    (∀ (i : ℕ) (hi : i + 1 < ([⟨"a", "a.png", "a.mp3", 2⟩,
        ⟨"b", "b.png", "b.mp3", 1⟩] : List SceneInput).length),
      ¬ inFrameInterval (sceneStartFrame 30 [⟨"a", "a.png", "a.mp3", 2⟩,
            ⟨"b", "b.png", "b.mp3", 1⟩] i)
          (sceneDurationInFrames 30
            (([⟨"a", "a.png", "a.mp3", 2⟩,
              ⟨"b", "b.png", "b.mp3", 1⟩] : List SceneInput).get
                ⟨i, Nat.lt_of_succ_lt hi⟩))
          (sceneStartFrame 30 [⟨"a", "a.png", "a.mp3", 2⟩,
            ⟨"b", "b.png", "b.mp3", 1⟩] (i + 1)) ∧
      inFrameInterval (sceneStartFrame 30 [⟨"a", "a.png", "a.mp3", 2⟩,
          ⟨"b", "b.png", "b.mp3", 1⟩] (i + 1))
        (sceneDurationInFrames 30
          (([⟨"a", "a.png", "a.mp3", 2⟩,
            ⟨"b", "b.png", "b.mp3", 1⟩] : List SceneInput).get ⟨i + 1, hi⟩))
        (sceneStartFrame 30 [⟨"a", "a.png", "a.mp3", 2⟩,
          ⟨"b", "b.png", "b.mp3", 1⟩] (i + 1))) :=
  scene_timeline_intervals
    [⟨"a", "a.png", "a.mp3", 2⟩, ⟨"b", "b.png", "b.mp3", 1⟩] 30
    (by simp) (by decide) (by decide)

/-- Constant `FADE_FRAMES = 8` of `src/SceneSlide.tsx:4`. -/
def FADE_FRAMES : ℤ := 8

/-- Modelled from the spec: remotion's `interpolate` (external library),
the linear clamped interpolation primitive of spec §4.3, restricted to the
four-breakpoint ranges used by `SceneSlide`: piecewise linear through
`(x0,y0) … (x3,y3)` with `extrapolateLeft`/`extrapolateRight` both
`"clamp"`. -/
def interp4 (x0 x1 x2 x3 y0 y1 y2 y3 v : ℚ) : ℚ :=
  if v ≤ x1 then y0 + (max v x0 - x0) / (x1 - x0) * (y1 - y0)
  else if v ≤ x2 then y1 + (v - x1) / (x2 - x1) * (y2 - y1)
  else y2 + (min v x3 - x2) / (x3 - x2) * (y3 - y2)

/-- Embedding of `fadeOutStart` of `src/SceneSlide.tsx:18`:
`Math.max(FADE_FRAMES, durationInFrames - FADE_FRAMES)`. -/
def fadeOutStart (durationInFrames : ℤ) : ℤ :=
  max FADE_FRAMES (durationInFrames - FADE_FRAMES)

/-- Embedding of `imageOpacity` of `src/SceneSlide.tsx:20-26`: the local frame
interpolated over `[0, FADE_FRAMES, fadeOutStart, durationInFrames]` to
`[0, 1, 1, 0]`, clamped on both sides. -/
def imageOpacity (durationInFrames frame : ℤ) : ℚ :=
  interp4 0 (FADE_FRAMES : ℚ) ((fadeOutStart durationInFrames : ℤ) : ℚ)
    (durationInFrames : ℚ) 0 1 1 0 (frame : ℚ)

/-- At local frame 0 the scene image is fully transparent. -/
theorem imageOpacity_at_zero (L : ℤ) : imageOpacity L 0 = 0 := by
  simp only [imageOpacity, interp4, FADE_FRAMES]
  push_cast
  rw [if_pos (by norm_num : (0:ℚ) ≤ 8)]
  norm_num

/-- At local frame `FADE_FRAMES` the scene image is fully opaque. -/
theorem imageOpacity_at_fadeFrames (L : ℤ) :
    imageOpacity L FADE_FRAMES = 1 := by
  simp only [imageOpacity, interp4, FADE_FRAMES]
  push_cast
  rw [if_pos (by norm_num : (8:ℚ) ≤ 8),
    max_eq_left (by norm_num : (0:ℚ) ≤ 8)]
  norm_num

/-- C3: fade boundary correctness of `SceneSlide`.  For an interval of
`L >= 2*FADE_FRAMES` frames the image opacity is 0 at local frame 0, 1 at
`FADE_FRAMES`, 1 at `L - FADE_FRAMES` and `1/8` (the "≈0" residual one
frame before the ramp's endpoint) at `L - 1`; for `L < 2*FADE_FRAMES` the
opacity stays within `[0, 1]` at every local frame of the interval. -/
theorem scene_fade_boundaries (L : ℤ) :
    (2 * FADE_FRAMES ≤ L →
      imageOpacity L 0 = 0 ∧
      imageOpacity L FADE_FRAMES = 1 ∧
      imageOpacity L (L - FADE_FRAMES) = 1 ∧
      imageOpacity L (L - 1) = 1 / 8) ∧
    (L < 2 * FADE_FRAMES →
      ∀ f : ℤ, 0 ≤ f → f < L →
        0 ≤ imageOpacity L f ∧ imageOpacity L f ≤ 1) := by
  constructor
  · intro hL
    have h16 : (16:ℤ) ≤ L := by simp only [FADE_FRAMES] at hL; omega
    have hfos : fadeOutStart L = L - 8 := by
      simp only [fadeOutStart, FADE_FRAMES]
      exact max_eq_right (by omega)
    refine ⟨imageOpacity_at_zero L, imageOpacity_at_fadeFrames L, ?_, ?_⟩
    · rcases eq_or_lt_of_le h16 with heq | hlt
      · have : L - FADE_FRAMES = FADE_FRAMES := by
          simp only [FADE_FRAMES]; omega
        rw [this]
        exact imageOpacity_at_fadeFrames L
      · simp only [imageOpacity, interp4, FADE_FRAMES, hfos]
        push_cast
        have hgt : ¬ ((L:ℚ) - 8 ≤ 8) := by
          have : (16:ℚ) < L := by exact_mod_cast hlt
          linarith
        rw [if_neg hgt, if_pos (le_refl _)]
        norm_num
    · have hcast : (16:ℚ) ≤ (L:ℚ) := by exact_mod_cast h16
      simp only [imageOpacity, interp4, FADE_FRAMES, hfos]
      push_cast
      have h1 : ¬ ((L:ℚ) - 1 ≤ 8) := by linarith
      have h2 : ¬ ((L:ℚ) - 1 ≤ (L:ℚ) - 8) := by linarith
      rw [if_neg h1, if_neg h2,
        min_eq_left (by linarith : (L:ℚ) - 1 ≤ (L:ℚ))]
      have e1 : (L:ℚ) - 1 - ((L:ℚ) - 8) = 7 := by ring
      have e2 : (L:ℚ) - ((L:ℚ) - 8) = 8 := by ring
      rw [e1, e2]
      norm_num
  · intro hL f hf0 hfL
    have h16 : L < 16 := by simp only [FADE_FRAMES] at hL; omega
    have hfos : fadeOutStart L = 8 := by
      simp only [fadeOutStart, FADE_FRAMES]
      exact max_eq_left (by omega)
    have hf0' : (0:ℚ) ≤ (f:ℚ) := by exact_mod_cast hf0
    have hfL' : (f:ℚ) < (L:ℚ) := by exact_mod_cast hfL
    simp only [imageOpacity, interp4, FADE_FRAMES, hfos]
    push_cast
    split_ifs with hc1
    · rw [max_eq_left hf0']
      constructor
      · have : (0:ℚ) ≤ (f:ℚ) / 8 := by positivity
        linarith
      · have : (f:ℚ) / 8 ≤ 1 := by
          rw [div_le_one (by norm_num : (0:ℚ) < 8)]
          linarith
        linarith
    · have h9 : (8:ℚ) < (f:ℚ) := not_le.mp hc1
      have hL8 : (0:ℚ) < (L:ℚ) - 8 := by linarith
      rw [min_eq_left (le_of_lt hfL')]
      have hq1 : 0 ≤ ((f:ℚ) - 8) / ((L:ℚ) - 8) :=
        div_nonneg (by linarith) (le_of_lt hL8)
      have hq2 : ((f:ℚ) - 8) / ((L:ℚ) - 8) ≤ 1 := by
        rw [div_le_one hL8]
        linarith
      constructor <;> nlinarith [hq1, hq2]

/-- Witness for C3 at concrete inputs: a 20-frame interval for the long
case and a 10-frame interval (shorter than `2*FADE_FRAMES`), local frame 9,
for the short case. -/
theorem scene_fade_boundaries_witness :
    (imageOpacity 20 0 = 0 ∧
      imageOpacity 20 FADE_FRAMES = 1 ∧
      imageOpacity 20 (20 - FADE_FRAMES) = 1 ∧
      imageOpacity 20 (20 - 1) = 1 / 8) ∧
    (0 ≤ imageOpacity 10 9 ∧ imageOpacity 10 9 ≤ 1) :=
  ⟨(scene_fade_boundaries 20).1 (by decide),
   (scene_fade_boundaries 10).2 (by decide) 9 (by decide) (by decide)⟩

/-- Outcome of the manifest fetch inside `calculateMetadata`
(`src/ShortVideo.tsx:114-120`): the response either was ok and parsed to a
manifest, or was not ok. -/
inductive FetchResult where
  | ok (manifest : VideoManifest)
  | notOk
deriving Repr, DecidableEq

/-- The metadata object returned by `calculateMetadata`
(`src/ShortVideo.tsx:107-124`); fields absent in the placeholder branch are
`none`. -/
structure CompositionMetadata where
  durationInFrames : ℤ
  fps : Option ℚ
  width : Option ℚ
  height : Option ℚ
  manifest : Option VideoManifest
deriving Repr, DecidableEq

/-- Embedding of `calculateMetadata` of `src/ShortVideo.tsx:107-124`: a falsy (empty)
`cacheKey` resolves to a 1-frame placeholder with a null manifest and no
fetch; otherwise a failed fetch throws a descriptive error, and a
successful fetch passes the manifest's own `durationInFrames`, `fps`,
`width` and `height` through unchanged. -/
def calculateMetadata (cacheKey : String) (fetch : FetchResult) :
    Except String CompositionMetadata :=
  if cacheKey = "" then
    .ok ⟨1, none, none, none, none⟩
  else
    match fetch with
    | .notOk =>
      .error ("Failed to load manifest: shortgen/" ++ cacheKey ++
        "/manifest.json. Run: python generation/scripts/prepare_remotion_assets.py "
        ++ cacheKey)
    | .ok m =>
      .ok ⟨m.durationInFrames, some m.fps, some m.width, some m.height,
        some m⟩

/-- One frame of compositor output: either the static "no manifest"
placeholder of `src/ShortVideo.tsx:21-37`, or composed content (the active
scene, if the frame falls in some scene's interval, plus the caption page
selected for the frame). -/
inductive ShortVideoView where
  | placeholder
  | content (activeScene : Option ℕ) (caption : Option TikTokPage)
deriving Repr, DecidableEq

/-- Constant `COMBINE_TOKENS_MS = 0` of `src/CaptionsOverlay.tsx:18` (word-by-word
variant). -/
def COMBINE_TOKENS_MS : ℚ := 0

/-- The scene whose timeline interval contains global frame `f`, under the
`Series` layout (spec §4.2). -/
def activeSceneIndex (fps : ℚ) (scenes : List SceneInput) (f : ℤ) :
    Option ℕ :=
  (List.range scenes.length).find? (fun i =>
    decide (inFrameInterval (sceneStartFrame fps scenes i)
      (sceneDurationInFrames fps (scenes.getD i ⟨"", "", "", 0⟩)) f))

/-- Embedding of `ShortVideo` of `src/ShortVideo.tsx:20-72` as a pure frame function: a
missing manifest or an empty scene list renders the placeholder
(`!manifest || !manifest.scenes?.length`); otherwise the frame's content is
composed from the scene timeline and the captions overlay. -/
def shortVideoView (manifest : Option VideoManifest) (frame : ℤ) :
    ShortVideoView :=
  match manifest with
  | none => .placeholder
  | some m =>
    if m.scenes.isEmpty then .placeholder
    else
      .content (activeSceneIndex m.fps m.scenes frame)
        (currentPage (createTikTokStyleCaptions m.captions COMBINE_TOKENS_MS)
          (frameTimeMs frame m.fps))

/-- C8: a missing manifest or an empty scene list renders the static
placeholder at every frame; the frame function is total (never throws). -/
theorem empty_scenes_placeholder (manifest : Option VideoManifest)
    (h : manifest = none ∨ ∃ m, manifest = some m ∧ m.scenes = []) :
    ∀ frame : ℤ, shortVideoView manifest frame = .placeholder := by
  intro frame
  rcases h with rfl | ⟨m, rfl, hempty⟩
  · rfl
  · simp [shortVideoView, hempty]

/-- Witness for C8 at a concrete input: a manifest with an empty scene
list, frame 0. -/
theorem empty_scenes_placeholder_witness :
    shortVideoView (some ⟨"k", 30, 540, 960, 1, [], []⟩) 0 = .placeholder :=
  empty_scenes_placeholder (some ⟨"k", 30, 540, 960, 1, [], []⟩)
    (Or.inr ⟨⟨"k", 30, 540, 960, 1, [], []⟩, rfl, rfl⟩) 0

/-- C9: an absent/empty `cacheKey` performs no fetch (the result does not
depend on the fetch outcome) and resolves to `durationInFrames = 1` with a
null manifest, which routes every frame into the placeholder branch; the
hard failure exists only for a non-empty `cacheKey` whose fetch does not
succeed, and a successful fetch never errors. -/
theorem empty_cacheKey_placeholder_route (fetch : FetchResult) (frame : ℤ)
    (ck : String) (hck : ck ≠ "") :
    calculateMetadata "" fetch = .ok ⟨1, none, none, none, none⟩ ∧
    shortVideoView
      ((⟨1, none, none, none, none⟩ : CompositionMetadata).manifest)
      frame = .placeholder ∧
    (∃ msg : String, calculateMetadata ck .notOk = .error msg) ∧
    (∀ m : VideoManifest, ∃ meta, calculateMetadata ck (.ok m) = .ok meta) := by
  refine ⟨rfl, rfl, ?_, ?_⟩
  · exact ⟨"Failed to load manifest: shortgen/" ++ ck ++
      "/manifest.json. Run: python generation/scripts/prepare_remotion_assets.py "
      ++ ck, by simp [calculateMetadata, hck]⟩
  · intro m
    exact ⟨⟨m.durationInFrames, some m.fps, some m.width, some m.height,
      some m⟩, by simp [calculateMetadata, hck]⟩

/-- Witness for C9 at a concrete input: fetch failure, frame 0, cache key
"k". -/
theorem empty_cacheKey_placeholder_route_witness :
    calculateMetadata "" .notOk = .ok ⟨1, none, none, none, none⟩ ∧
    shortVideoView
      ((⟨1, none, none, none, none⟩ : CompositionMetadata).manifest)
      0 = .placeholder ∧
    (∃ msg : String, calculateMetadata "k" .notOk = .error msg) ∧
    (∀ m : VideoManifest, ∃ meta, calculateMetadata "k" (.ok m) = .ok meta) :=
  empty_cacheKey_placeholder_route .notOk 0 "k" (by decide)

/-- Counterexample to C4: a manifest whose declared `durationInFrames`
(999) differs from the scene sum (one 1-second scene at 30 fps = 30
frames) is accepted and composed as-is — `calculateMetadata` passes 999
through with no check relating it to the scene sum. -/
theorem manifest_duration_unchecked_cex :
    calculateMetadata "k"
      (.ok ⟨"k", 30, 540, 960, 999, [⟨"s", "i.png", "v.mp3", 1⟩], []⟩) =
      .ok ⟨999, some 30, some 540, some 960,
        some ⟨"k", 30, 540, 960, 999, [⟨"s", "i.png", "v.mp3", 1⟩], []⟩⟩ ∧
    totalDurationInFrames 30 [⟨"s", "i.png", "v.mp3", 1⟩] = 30 ∧
    (999 : ℤ) ≠ 30 := by
  refine ⟨by simp [calculateMetadata], ?_, by decide⟩
  simp [totalDurationInFrames, sceneDurationInFrames]

/-- C4 (amended): at composition time the manifest's declared
`durationInFrames` is used as-is — `calculateMetadata` passes it through
unchanged for every successfully fetched manifest, performing no equality
check against the scene-sum `totalDurationInFrames`; the equality holds
only when the upstream manifest preparation guarantees it. -/
theorem manifest_duration_passthrough (ck : String) (hck : ck ≠ "")
    (m : VideoManifest) :
    calculateMetadata ck (.ok m) =
      .ok ⟨m.durationInFrames, some m.fps, some m.width, some m.height,
        some m⟩ := by
  simp [calculateMetadata, hck]

/-- Witness for the amended C4 at a concrete input. -/
theorem manifest_duration_passthrough_witness :
    calculateMetadata "k"
      (.ok ⟨"k", 30, 540, 960, 31, [⟨"s", "i.png", "v.mp3", 1⟩], []⟩) =
      .ok ⟨31, some 30, some 540, some 960,
        some ⟨"k", 30, 540, 960, 31, [⟨"s", "i.png", "v.mp3", 1⟩], []⟩⟩ :=
  manifest_duration_passthrough "k" (by decide)
    ⟨"k", 30, 540, 960, 31, [⟨"s", "i.png", "v.mp3", 1⟩], []⟩

/-- Counterexample to C5: a scene with `durationInSeconds = 0` at 30 fps
gets `durationInFrames = ceil(0 * 30) = 0`, not a value clamped to at
least 1 — no clamping exists at `src/ShortVideo.tsx:47-49`. -/
theorem scene_duration_no_clamp_cex :
    sceneDurationInFrames 30 ⟨"s", "i.png", "v.mp3", 0⟩ = 0 ∧
    ¬ (1 ≤ sceneDurationInFrames 30 ⟨"s", "i.png", "v.mp3", 0⟩) := by
  have h : sceneDurationInFrames 30 ⟨"s", "i.png", "v.mp3", 0⟩ = 0 := by
    simp [sceneDurationInFrames]
  exact ⟨h, by rw [h]; decide⟩

/-- C5 (amended): the timeline builder does not clamp:
`durationInFrames = ceil(durationInSeconds * fps)`, which is zero or
negative — never at least 1 — whenever `durationInSeconds <= 0` and the
fps is positive. -/
theorem scene_nonpositive_duration_frames (s : SceneInput) (fps : ℚ)
    (hd : s.durationInSeconds ≤ 0) (hfps : 0 < fps) :
    sceneDurationInFrames fps s = ⌈s.durationInSeconds * fps⌉ ∧
    sceneDurationInFrames fps s ≤ 0 := by
  refine ⟨rfl, ?_⟩
  unfold sceneDurationInFrames
  have hmul : s.durationInSeconds * fps ≤ 0 := by nlinarith
  exact Int.ceil_le.mpr (by exact_mod_cast hmul)

/-- Witness for the amended C5 at a concrete input: duration 0 at 30
fps. -/
theorem scene_nonpositive_duration_frames_witness :
    sceneDurationInFrames 30 ⟨"s", "i.png", "v.mp3", (0:ℚ)⟩ =
      ⌈((0:ℚ)) * 30⌉ ∧
    sceneDurationInFrames 30 ⟨"s", "i.png", "v.mp3", (0:ℚ)⟩ ≤ 0 :=
  scene_nonpositive_duration_frames ⟨"s", "i.png", "v.mp3", 0⟩ 30
    (by decide) (by decide)
